import Mathlib

/-!
Shallow embedding of the pivotaljs client (src/index.js), centred on the
cursor-based pagination algorithm `Pivotal.prototype.paginated` and the
request wrapper `Pivotal.prototype.api`.

Modelling choices:
* JS numbers appearing in the pagination arithmetic are embedded as `Int`
  (all values involved are integer-valued; `total - offset` may be negative).
* A JS object used as a bag of query parameters or request options is a
  finite-support function `String → Option v`; underscore's `_.extend`
  (later sources override the destination) is `extend`.
* The HTTP server is a function from the request's `(offset, limit)` to an
  outcome: a transport error (truthy `err`) or a parsed body `Res` whose
  `pagination` field may be missing (the malformed-response case).
* A pagination session is observed through its trace of events: requests
  issued, `callback` (onPage) invocations, and `completed` (onComplete)
  invocations with either one argument or none.  The caller's decision at
  each continuation is a `policy : Nat → Bool` indexed by page number, and
  the presence of the optional `callback`/`completed` arguments is a pair
  of Booleans (the code guards them with `callback && …`, `completed && …`).
* The recursion of `paginated` is driven by explicit fuel; theorems about
  termination quantify over the fuel.
-/

/-- `pagination` metadata of an enveloped response (`{returned, total}`). -/
structure Pagination where
  returned : Int
  total : Int
deriving DecidableEq, Repr

/-- A parsed enveloped response body: `{data, pagination}`; `pagination`
is `none` when the field is missing (malformed response). Items are
abstracted to `Nat`. -/
structure Res where
  data : List Nat
  pagination : Option Pagination
deriving DecidableEq, Repr

/-- Outcome of one `api` round trip as seen by the `(err, res)` callback in
`paginated`: either a truthy transport error or a parsed body. -/
inductive ApiOutcome where
  | failure (e : Int)
  | success (r : Res)
deriving DecidableEq, Repr

/-- The single argument passed to `completed` on the failure path:
`err || res`. -/
inductive ErrOrRes where
  | err (e : Int)
  | res (r : Res)
deriving DecidableEq, Repr

/-- Observable events of a pagination session. `onPage` records the first
argument passed to `callback` (the code passes the literal `null`, i.e.
`none`), the delivered `data` and `pagination`. `completeArg` is
`completed(x)` with exactly one argument, `completeNone` is `completed()`. -/
inductive Event where
  | request (offset limit : Int)
  | onPage (e : Option Int) (data : List Nat) (pg : Pagination)
  | completeArg (a : ErrOrRes)
  | completeNone
deriving DecidableEq, Repr

/-- `pagination` field of an outcome, when the call succeeded and the body
carries one. -/
def pageOf : ApiOutcome → Option Pagination
  | ApiOutcome.failure _ => none
  | ApiOutcome.success r => r.pagination

/-- The continuation closure `function(cont) { … }` created for one page:
`offset` is the already-advanced offset captured by the closure, `total`
is `res.pagination.total`, `limit` the current call's limit, and `next`
is the recursive `that.paginated(path, offset, Math.min(left, limit), …)`
call. -/
def continuationBody (hasCompleted : Bool) (next : Int → Int → List Event)
    (total offset limit : Int) (cont : Bool) : List Event :=
  if cont then
    let left := total - offset
    if left > 0 then
      next offset (min left limit)
    else
      if hasCompleted then [Event.completeNone] else []
  else
    if hasCompleted then [Event.completeNone] else []

/-- Trace semantics of `Pivotal.prototype.paginated`, driven by `fuel`
(number of HTTP round trips still allowed), `k` (index of the current page,
consumed by the caller's continuation `policy`), and the current
`offset`/`limit`.  `hasCallback`/`hasCompleted` model whether the optional
`callback`/`completed` arguments were supplied. -/
def runPaginated (server : Int → Int → ApiOutcome) (policy : Nat → Bool)
    (hasCallback hasCompleted : Bool) : Nat → Nat → Int → Int → List Event
  | 0, _, _, _ => []
  | fuel+1, k, offset, limit =>
    Event.request offset limit ::
      (match server offset limit with
       | ApiOutcome.failure e =>
         if hasCompleted then [Event.completeArg (ErrOrRes.err e)] else []
       | ApiOutcome.success r =>
         match r.pagination with
         | none =>
           if hasCompleted then [Event.completeArg (ErrOrRes.res r)] else []
         | some pg =>
           if hasCallback then
             Event.onPage none r.data pg ::
               continuationBody hasCompleted
                 (fun o2 l2 =>
                   runPaginated server policy hasCallback hasCompleted fuel (k+1) o2 l2)
                 pg.total (offset + pg.returned) limit (policy k)
           else [])

/-- The `(offset, limit)` parameters of the requests issued in a trace. -/
def requestParams (tr : List Event) : List (Int × Int) :=
  tr.filterMap fun e =>
    match e with
    | Event.request o l => some (o, l)
    | _ => none

/-- The offsets of the requests issued in a trace. -/
def requestOffsets (tr : List Event) : List Int :=
  (requestParams tr).map Prod.fst

/-- Last event of a trace. -/
def lastEvent (tr : List Event) : Option Event :=
  tr.getLast?

/-- Parameters of the last request issued in a trace. -/
def lastRequest (tr : List Event) : Option (Int × Int) :=
  (requestParams tr).getLast?

/-- Sum of `pagination.returned` over the pages delivered in a trace. -/
def sumReturned (tr : List Event) : Int :=
  (tr.filterMap fun e =>
    match e with
    | Event.onPage _ _ pg => some pg.returned
    | _ => none).sum

/-- Whether an event is an invocation of `completed` (with or without an
argument). -/
def isOnComplete : Event → Bool
  | Event.completeArg _ => true
  | Event.completeNone => true
  | _ => false

/-- Relation between consecutive requests of a session: the next request's
offset is the previous one advanced by exactly the `returned` of the page
the server sent in between. -/
def stepRel (server : Int → Int → ApiOutcome) (p q : Int × Int) : Prop :=
  ∃ pg, pageOf (server p.1 p.2) = some pg ∧ q.1 = p.1 + pg.returned

/-- Underscore's `_.extend(destination, source)` on objects embedded as
finite-support functions: keys of `source` override `destination`. -/
def extend {α : Type} (dest src : String → Option α) : String → Option α :=
  fun key =>
    match src key with
    | some v => some v
    | none => dest key

/-- A JSON-ish query-string value. -/
inductive QVal where
  | int (i : Int)
  | boolean (b : Bool)
  | str (s : String)
deriving DecidableEq, Repr

/-- The `qs` object built by `paginated` (src/index.js lines 216-220):
`_.extend({offset: offset, limit: limit, envelope: true}, options)`. -/
def paginatedQs (offset limit : Int) (options : String → Option QVal) :
    String → Option QVal :=
  extend (fun key =>
    if key = "offset" then some (QVal.int offset)
    else if key = "limit" then some (QVal.int limit)
    else if key = "envelope" then some (QVal.boolean true)
    else none) options

/-- A value of the options object handed to the `request` library. -/
inductive OptVal where
  | str (s : String)
  | boolean (b : Bool)
  | headers (h : String → Option String)

/-- `this.baseUrl` set in the constructor. -/
def baseUrl : String := "https://www.pivotaltracker.com/services/v5/"

/-- The default headers object `{X-TrackerToken: this.apiToken}`. -/
def defaultHeaders (apiToken : String) : String → Option String :=
  fun h => if h = "X-TrackerToken" then some apiToken else none

/-- The `opts` object built by `api` (src/index.js lines 243-250):
`_.extend({method, url, json: true, headers: {X-TrackerToken: token}}, options)`. -/
def apiOpts (method url apiToken : String) (options : String → Option OptVal) :
    String → Option OptVal :=
  extend (fun key =>
    if key = "method" then some (OptVal.str method)
    else if key = "url" then some (OptVal.str url)
    else if key = "json" then some (OptVal.boolean true)
    else if key = "headers" then some (OptVal.headers (defaultHeaders apiToken))
    else none) options

/-- Outcome of the underlying `request(opts, …)` round trip: a transport
error, or a response with an HTTP status and a parsed body. -/
inductive TransportResult (β : Type) where
  | failure (e : Int)
  | ok (status : Int) (body : β)

/-- The `(err, result)` pair `api` forwards to its callback: on transport
failure the error and an `undefined` result, on success a null error and
the parsed body (the HTTP status is not consulted). -/
def requestCallbackArgs {β : Type} : TransportResult β → Option Int × Option β
  | TransportResult.failure e => (some e, none)
  | TransportResult.ok _ body => (none, some body)

/-- `Pivotal.prototype.api`: builds `opts`, performs one round trip, and
invokes the callback once with `(err, result)` — only if a function was
supplied (`_.isFunction(callback)`, modelled by `hasCb`).  Returns the
issued options object and the list of callback invocations. -/
def api {β : Type} (method p apiToken : String)
    (options : String → Option OptVal)
    (transport : (String → Option OptVal) → TransportResult β)
    (hasCb : Bool) :
    (String → Option OptVal) × List (Option Int × Option β) :=
  let opts := apiOpts method (baseUrl ++ p) apiToken options
  (opts, if hasCb then [requestCallbackArgs (transport opts)] else [])

/-- JS `x || d` on an optional numeric argument: an absent argument and a
falsy (zero) value both fall back to the default. -/
def jsOr (x : Option Int) (d : Int) : Int :=
  match x with
  | none => d
  | some v => if v = 0 then d else v

/-- `Pivotal.prototype.getStories`: the `(path, offset, limit)` triple it
passes to `paginated` (`offset || 0`, `limit || 128`). -/
def getStories (projectId : String) (offset limit : Option Int) :
    String × Int × Int :=
  ("projects/" ++ projectId ++ "/stories", jsOr offset 0, jsOr limit 128)

/-- `Pivotal.prototype.getActivity`: `(path, offset, limit)` passed to
`paginated`. -/
def getActivity (projectId : String) (offset limit : Option Int) :
    String × Int × Int :=
  ("projects/" ++ projectId ++ "/activity", jsOr offset 0, jsOr limit 128)

/-- `Pivotal.prototype.getIterations`: `(path, offset, limit)` passed to
`paginated`. -/
def getIterations (projectId : String) (offset limit : Option Int) :
    String × Int × Int :=
  ("projects/" ++ projectId ++ "/iterations", jsOr offset 0, jsOr limit 128)

/-- A server holding 300 items that always returns exactly the requested
limit of items per page. -/
def server300 : Int → Int → ApiOutcome :=
  fun _ l => ApiOutcome.success ⟨List.replicate l.toNat 0, some ⟨l, 300⟩⟩

/-- A caller that always continues. -/
def alwaysTrue : Nat → Bool := fun _ => true

/-- An `extraParams` object containing the reserved key `offset`. -/
def exOptions : String → Option QVal :=
  fun key => if key = "offset" then some (QVal.int 999) else none

/-- A server answering every request with one page of 1 item out of 2. -/
def constPageServer : Int → Int → ApiOutcome :=
  fun _ _ => ApiOutcome.success ⟨[0], some ⟨1, 2⟩⟩

/-- A server holding 2 items that returns exactly the requested limit of
items per page. -/
def serverEcho2 : Int → Int → ApiOutcome :=
  fun _ l => ApiOutcome.success ⟨List.replicate l.toNat 0, some ⟨l, 2⟩⟩

/-- A server whose first page returns 250 of 300 items and every later
page 60 items — more than the requested limit, which a real server never
does but nothing in the code prevents. -/
def serverC2 : Int → Int → ApiOutcome :=
  fun o _ =>
    if o = 0 then ApiOutcome.success ⟨[], some ⟨250, 300⟩⟩
    else ApiOutcome.success ⟨[], some ⟨60, 300⟩⟩

/-- A server reporting `total = 5` but returning 7 items on the first
page (more than exist, yet still within the requested limit of 128). -/
def serverC5 : Int → Int → ApiOutcome :=
  fun _ _ => ApiOutcome.success ⟨List.replicate 7 0, some ⟨7, 5⟩⟩

/-- A server that always fails with transport error 7. -/
def failServer : Int → Int → ApiOutcome :=
  fun _ _ => ApiOutcome.failure 7

/-- An empty request options object. -/
def noOpts : String → Option OptVal := fun _ => none

/-- A transport that always answers with HTTP status 500 and body `42`. -/
def okTransport : (String → Option OptVal) → TransportResult Nat :=
  fun _ => TransportResult.ok 500 42

/-! ## Structural lemmas about `runPaginated` traces -/

theorem runPaginated_succ_head (server : Int → Int → ApiOutcome)
    (policy : Nat → Bool) (hasCallback hasCompleted : Bool) (fuel k : Nat)
    (o l : Int) :
    (runPaginated server policy hasCallback hasCompleted (fuel+1) k o l).head? =
      some (Event.request o l) := rfl

theorem runPaginated_succ_eq (server : Int → Int → ApiOutcome)
    (policy : Nat → Bool) (hasCallback hasCompleted : Bool) (fuel k : Nat)
    (o l : Int) :
    ∃ rest, runPaginated server policy hasCallback hasCompleted (fuel+1) k o l =
      Event.request o l :: rest :=
  ⟨_, rfl⟩

theorem requestParams_cons_request (o l : Int) (tr : List Event) :
    requestParams (Event.request o l :: tr) = (o, l) :: requestParams tr := by
  simp [requestParams]

theorem requestParams_cons_onPage (e : Option Int) (d : List Nat)
    (pg : Pagination) (tr : List Event) :
    requestParams (Event.onPage e d pg :: tr) = requestParams tr := by
  simp [requestParams]

theorem sumReturned_cons_request (o l : Int) (tr : List Event) :
    sumReturned (Event.request o l :: tr) = sumReturned tr := by
  simp [sumReturned]

theorem sumReturned_cons_onPage (e : Option Int) (d : List Nat)
    (pg : Pagination) (tr : List Event) :
    sumReturned (Event.onPage e d pg :: tr) = pg.returned + sumReturned tr := by
  simp [sumReturned]

theorem lastEvent_cons_cons_of_ne_nil (a b : Event) (tr : List Event)
    (h : tr ≠ []) :
    lastEvent (a :: b :: tr) = lastEvent tr := by
  cases tr with
  | nil => exact absurd rfl h
  | cons c t =>
    unfold lastEvent
    rw [List.getLast?_cons_cons, List.getLast?_cons_cons]

theorem lastRequest_skip (o l : Int) (e : Option Int) (d : List Nat)
    (pg : Pagination) (tr : List Event) (h : requestParams tr ≠ []) :
    lastRequest (Event.request o l :: Event.onPage e d pg :: tr) =
      lastRequest tr := by
  unfold lastRequest
  rw [requestParams_cons_request, requestParams_cons_onPage]
  cases hq : requestParams tr with
  | nil => exact absurd hq h
  | cons x t => rw [List.getLast?_cons_cons]

/-! ## C1: query parameters of each pagination request -/

/-- C1 counterexample: when `extraParams` contains the reserved key
`offset`, the `extraParams` value (999) overwrites the Paginator's offset
(0) in the query actually sent — `_.extend({offset, limit, envelope},
options)` lets `options` win, not the Paginator. -/
theorem paginated_qs_override_cex :
    paginatedQs 0 128 exOptions "offset" = some (QVal.int 999) ∧
    paginatedQs 0 128 exOptions "offset" ≠ some (QVal.int 0) := by
  refine ⟨rfl, ?_⟩
  decide

/-- C1 (amended): the query sent is `extraParams` merged over
`{offset, limit, envelope: true}`; the Paginator's reserved values are
used exactly when `extraParams` omits those keys, and any key present in
`extraParams` — reserved ones included — takes precedence. -/
theorem paginated_qs_merge (offset limit : Int)
    (options : String → Option QVal) :
    (options "offset" = none →
      paginatedQs offset limit options "offset" = some (QVal.int offset)) ∧
    (options "limit" = none →
      paginatedQs offset limit options "limit" = some (QVal.int limit)) ∧
    (options "envelope" = none →
      paginatedQs offset limit options "envelope" = some (QVal.boolean true)) ∧
    (∀ key v, options key = some v →
      paginatedQs offset limit options key = some v) := by
  refine ⟨?_, ?_, ?_, ?_⟩
  · intro h; simp [paginatedQs, extend, h]
  · intro h; simp [paginatedQs, extend, h]
  · intro h; simp [paginatedQs, extend, h]
  · intro key v h; simp [paginatedQs, extend, h]

/-- Witness for `paginated_qs_merge` at concrete inputs. -/
theorem paginated_qs_merge_witness :
    ((fun _ => none : String → Option QVal) "offset" = none) ∧
    paginatedQs 3 5 (fun _ => none) "offset" = some (QVal.int 3) ∧
    exOptions "offset" = some (QVal.int 999) ∧
    paginatedQs 3 5 exOptions "offset" = some (QVal.int 999) :=
  ⟨rfl, (paginated_qs_merge 3 5 (fun _ => none)).1 rfl,
   rfl, (paginated_qs_merge 3 5 exOptions).2.2.2 "offset" (QVal.int 999) rfl⟩

/-! ## C6: the 300-item / limit-128 scenario -/

/-- C6: with 300 items and limit 128 against a server returning exactly
the requested limit per page, the session issues exactly three requests
at offsets 0, 128, 256 with limits 128, 128, 44, delivers pages of sizes
128, 128, 44, and ends with `onComplete()` after the third continuation. -/
theorem paginated_scenario_300_128 :
    runPaginated server300 alwaysTrue true true 4 0 0 128 =
      [Event.request 0 128,
       Event.onPage none (List.replicate 128 0) ⟨128, 300⟩,
       Event.request 128 128,
       Event.onPage none (List.replicate 128 0) ⟨128, 300⟩,
       Event.request 256 44,
       Event.onPage none (List.replicate 44 0) ⟨44, 300⟩,
       Event.completeNone] ∧
    requestParams (runPaginated server300 alwaysTrue true true 4 0 0 128) =
      [(0, 128), (128, 128), (256, 44)] ∧
    ((runPaginated server300 alwaysTrue true true 4 0 0 128).filterMap fun e =>
      match e with
      | Event.onPage _ d _ => some d.length
      | _ => none) = [128, 128, 44] ∧
    lastEvent (runPaginated server300 alwaysTrue true true 4 0 0 128) =
      some Event.completeNone :=
  ⟨rfl, rfl, rfl, rfl⟩

/-! ## C7: `api` defaults and callback outcome -/

/-- C7: every `api` request carries the defaults `json: true` and an
`X-TrackerToken` header holding the instance's token unless the caller's
options override them (caller options take precedence), and the callback
receives the transport error with an undefined result on failure, and a
null error with the parsed body — whatever the HTTP status — on success. -/
theorem api_defaults_and_callback {β : Type} (method p apiToken : String)
    (options : String → Option OptVal)
    (transport : (String → Option OptVal) → TransportResult β) :
    (options "json" = none →
      (api method p apiToken options transport true).1 "json" =
        some (OptVal.boolean true)) ∧
    (options "headers" = none →
      (api method p apiToken options transport true).1 "headers" =
        some (OptVal.headers (defaultHeaders apiToken))) ∧
    defaultHeaders apiToken "X-TrackerToken" = some apiToken ∧
    (∀ key v, options key = some v →
      (api method p apiToken options transport true).1 key = some v) ∧
    (∀ e, transport (apiOpts method (baseUrl ++ p) apiToken options) =
        TransportResult.failure e →
      (api method p apiToken options transport true).2 = [(some e, none)]) ∧
    (∀ status body,
      transport (apiOpts method (baseUrl ++ p) apiToken options) =
        TransportResult.ok status body →
      (api method p apiToken options transport true).2 = [(none, some body)]) := by
  refine ⟨?_, ?_, ?_, ?_, ?_, ?_⟩
  · intro h; simp [api, apiOpts, extend, h]
  · intro h; simp [api, apiOpts, extend, h]
  · simp [defaultHeaders]
  · intro key v h; simp [api, apiOpts, extend, h]
  · intro e h; simp [api, h, requestCallbackArgs]
  · intro status body h; simp [api, h, requestCallbackArgs]

/-- Witness for `api_defaults_and_callback` at concrete inputs. -/
theorem api_defaults_and_callback_witness :
    noOpts "json" = none ∧
    (api "get" "projects" "tok" noOpts okTransport true).1 "json" =
      some (OptVal.boolean true) ∧
    okTransport (apiOpts "get" (baseUrl ++ "projects") "tok" noOpts) =
      TransportResult.ok 500 42 ∧
    (api "get" "projects" "tok" noOpts okTransport true).2 =
      [(none, some 42)] :=
  ⟨rfl,
   (api_defaults_and_callback "get" "projects" "tok" noOpts okTransport).1 rfl,
   rfl,
   (api_defaults_and_callback "get" "projects" "tok" noOpts
      okTransport).2.2.2.2.2 500 42 rfl⟩

/-! ## C10: the `api` callback fires once, and only if it is a function -/

/-- C10: per round trip the callback list has length one when a function
was supplied and is empty otherwise, so omitting the callback never
attempts a call. -/
theorem api_callback_once {β : Type} (method p apiToken : String)
    (options : String → Option OptVal)
    (transport : (String → Option OptVal) → TransportResult β)
    (hasCb : Bool) :
    ((api method p apiToken options transport hasCb).2).length =
      (if hasCb then 1 else 0) ∧
    (api method p apiToken options transport false).2 = [] := by
  cases hasCb <;> simp [api]

/-! ## C8: missing `callback` / `completed` arguments -/

/-- C8: with no `onPage` callback a successful enveloped response produces
no further observable activity at all (no page delivery, no continuation,
no next request, no completion); with no `onComplete` callback the error
and malformed-response paths drop the failure silently. -/
theorem paginated_missing_callbacks (server : Int → Int → ApiOutcome)
    (policy : Nat → Bool) :
    (∀ hasCompleted fuel k o l r pg, server o l = ApiOutcome.success r →
      r.pagination = some pg →
      runPaginated server policy false hasCompleted (fuel+1) k o l =
        [Event.request o l]) ∧
    (∀ hasCallback fuel k o l e, server o l = ApiOutcome.failure e →
      runPaginated server policy hasCallback false (fuel+1) k o l =
        [Event.request o l]) ∧
    (∀ hasCallback fuel k o l r, server o l = ApiOutcome.success r →
      r.pagination = none →
      runPaginated server policy hasCallback false (fuel+1) k o l =
        [Event.request o l]) := by
  refine ⟨?_, ?_, ?_⟩
  · intro hasCompleted fuel k o l r pg h1 h2
    simp [runPaginated, h1, h2]
  · intro hasCallback fuel k o l e h1
    simp [runPaginated, h1]
  · intro hasCallback fuel k o l r h1 h2
    simp [runPaginated, h1, h2]

/-- Witness for `paginated_missing_callbacks` at concrete inputs. -/
theorem paginated_missing_callbacks_witness :
    constPageServer 0 5 = ApiOutcome.success ⟨[0], some ⟨1, 2⟩⟩ ∧
    (Res.pagination ⟨[0], some ⟨1, 2⟩⟩ = some ⟨1, 2⟩) ∧
    runPaginated constPageServer alwaysTrue false true 1 0 0 5 =
      [Event.request 0 5] ∧
    failServer 0 5 = ApiOutcome.failure 7 ∧
    runPaginated failServer alwaysTrue true false 1 0 0 5 =
      [Event.request 0 5] :=
  ⟨rfl, rfl,
   (paginated_missing_callbacks constPageServer alwaysTrue).1 true 0 0 0 5
     ⟨[0], some ⟨1, 2⟩⟩ ⟨1, 2⟩ rfl rfl,
   rfl,
   (paginated_missing_callbacks failServer alwaysTrue).2.1 true 0 0 0 5 7 rfl⟩

/-! ## C9: zero offset/limit arguments in the paginated wrappers -/

/-- C9: in `getStories`, `getActivity` and `getIterations` a 0 offset or
0 limit argument behaves exactly like an absent one (`offset || 0`,
`limit || 128`): the session starts at offset 0 and, when the limit is 0
or absent, with limit 128 — never limit 0. -/
theorem wrappers_zero_defaults (projectId : String) (o l : Option Int) :
    getStories projectId (some 0) l = getStories projectId none l ∧
    getStories projectId o (some 0) = getStories projectId o none ∧
    (getStories projectId none l).2.1 = 0 ∧
    (getStories projectId o none).2.2 = 128 ∧
    (getStories projectId o (some 0)).2.2 = 128 ∧
    getActivity projectId (some 0) l = getActivity projectId none l ∧
    getActivity projectId o (some 0) = getActivity projectId o none ∧
    getIterations projectId (some 0) l = getIterations projectId none l ∧
    getIterations projectId o (some 0) = getIterations projectId o none ∧
    (∀ server policy hasCallback hasCompleted fuel k,
      (runPaginated server policy hasCallback hasCompleted (fuel+1) k
        (getStories projectId (some 0) (some 0)).2.1
        (getStories projectId (some 0) (some 0)).2.2).head? =
      some (Event.request 0 128)) := by
  refine ⟨rfl, rfl, rfl, rfl, rfl, rfl, rfl, rfl, rfl, ?_⟩
  intro server policy hasCallback hasCompleted fuel k
  exact runPaginated_succ_head server policy hasCallback hasCompleted fuel k 0 128

/-! ## Per-branch trace equations for `runPaginated` -/

theorem run_eq_failure (server : Int → Int → ApiOutcome)
    (policy : Nat → Bool) (hasCallback hasCompleted : Bool) (n k : Nat)
    (o l e : Int) (hs : server o l = ApiOutcome.failure e) :
    runPaginated server policy hasCallback hasCompleted (n+1) k o l =
      Event.request o l ::
        (if hasCompleted then [Event.completeArg (ErrOrRes.err e)] else []) := by
  simp only [runPaginated, hs]

theorem run_eq_malformed (server : Int → Int → ApiOutcome)
    (policy : Nat → Bool) (hasCallback hasCompleted : Bool) (n k : Nat)
    (o l : Int) (r : Res) (hs : server o l = ApiOutcome.success r)
    (hp : r.pagination = none) :
    runPaginated server policy hasCallback hasCompleted (n+1) k o l =
      Event.request o l ::
        (if hasCompleted then [Event.completeArg (ErrOrRes.res r)] else []) := by
  simp only [runPaginated, hs, hp]

theorem run_eq_page (server : Int → Int → ApiOutcome)
    (policy : Nat → Bool) (hasCallback hasCompleted : Bool) (n k : Nat)
    (o l : Int) (r : Res) (pg : Pagination)
    (hs : server o l = ApiOutcome.success r) (hp : r.pagination = some pg) :
    runPaginated server policy hasCallback hasCompleted (n+1) k o l =
      Event.request o l ::
        (if hasCallback then
          Event.onPage none r.data pg ::
            continuationBody hasCompleted
              (fun o2 l2 =>
                runPaginated server policy hasCallback hasCompleted n (k+1) o2 l2)
              pg.total (o + pg.returned) l (policy k)
         else []) := by
  simp only [runPaginated, hs, hp]

/-! ## The first argument of `onPage` is always null -/

theorem runPaginated_onPage_arg_none (server : Int → Int → ApiOutcome)
    (policy : Nat → Bool) (hasCallback hasCompleted : Bool) :
    ∀ fuel k o l e d pg,
      Event.onPage e d pg ∈
        runPaginated server policy hasCallback hasCompleted fuel k o l →
      e = none := by
  intro fuel
  induction fuel with
  | zero =>
    intro k o l e d pg h
    simp [runPaginated] at h
  | succ n ih =>
    intro k o l e d pg h
    cases hs : server o l with
    | failure e2 =>
      rw [run_eq_failure server policy hasCallback hasCompleted n k o l e2 hs]
        at h
      cases hasCompleted <;> simp at h
    | success r =>
      cases hp : r.pagination with
      | none =>
        rw [run_eq_malformed server policy hasCallback hasCompleted n k o l r
          hs hp] at h
        cases hasCompleted <;> simp at h
      | some pg2 =>
        rw [run_eq_page server policy hasCallback hasCompleted n k o l r pg2
          hs hp] at h
        cases hasCallback with
        | false => simp at h
        | true =>
          rw [if_pos rfl] at h
          rcases List.mem_cons.mp h with h1 | h2
          · exact absurd h1 (by simp)
          rcases List.mem_cons.mp h2 with h3 | h4
          · simp only [Event.onPage.injEq] at h3
            exact h3.1
          cases hpk : policy k with
          | false =>
            rw [hpk] at h4
            simp only [continuationBody] at h4
            cases hasCompleted <;> simp at h4
          | true =>
            rw [hpk] at h4
            simp only [continuationBody, if_true] at h4
            by_cases hl : pg2.total - (o + pg2.returned) > 0
            · rw [if_pos hl] at h4
              exact ih (k+1) (o + pg2.returned)
                (min (pg2.total - (o + pg2.returned)) l) e d pg h4
            · rw [if_neg hl] at h4
              cases hasCompleted <;> simp at h4

/-! ## C3: behaviour of the continuation -/

/-- C3: invoking the continuation with a falsy value calls `onComplete()`
with no arguments and issues no request; with a truthy value it computes
`remaining = total - advancedOffset`, calls `onComplete()` when
`remaining ≤ 0` (so with `total = 0` and a non-negative advanced offset no
second request is ever issued), and otherwise recurses at the advanced
offset with limit `min(remaining, limit)`, whose first event is that very
request. -/
theorem paginated_continuation_spec (server : Int → Int → ApiOutcome)
    (policy : Nat → Bool) (hasCallback : Bool) (fuel m k : Nat)
    (total offset limit : Int) :
    (continuationBody true
        (fun o2 l2 => runPaginated server policy hasCallback true fuel k o2 l2)
        total offset limit false = [Event.completeNone]) ∧
    (total - offset ≤ 0 →
      continuationBody true
        (fun o2 l2 => runPaginated server policy hasCallback true fuel k o2 l2)
        total offset limit true = [Event.completeNone]) ∧
    (0 < total - offset →
      continuationBody true
        (fun o2 l2 => runPaginated server policy hasCallback true fuel k o2 l2)
        total offset limit true =
      runPaginated server policy hasCallback true fuel k offset
        (min (total - offset) limit)) ∧
    (0 < total - offset →
      (continuationBody true
        (fun o2 l2 => runPaginated server policy hasCallback true (m+1) k o2 l2)
        total offset limit true).head? =
      some (Event.request offset (min (total - offset) limit))) ∧
    (total = 0 → 0 ≤ offset → ∀ cont,
      requestParams (continuationBody true
        (fun o2 l2 => runPaginated server policy hasCallback true fuel k o2 l2)
        total offset limit cont) = []) := by
  refine ⟨?_, ?_, ?_, ?_, ?_⟩
  · simp [continuationBody]
  · intro h
    simp only [continuationBody, if_true]
    rw [if_neg (by omega)]
  · intro h
    simp only [continuationBody, if_true]
    rw [if_pos h]
  · intro h
    simp only [continuationBody, if_true]
    rw [if_pos h]
    exact runPaginated_succ_head server policy hasCallback true m k offset
      (min (total - offset) limit)
  · intro ht ho cont
    cases cont with
    | false => simp [continuationBody, requestParams]
    | true =>
      simp only [continuationBody, if_true]
      rw [if_neg (by omega)]
      simp [requestParams]

/-- Witness for `paginated_continuation_spec` at concrete inputs. -/
theorem paginated_continuation_spec_witness :
    ((0:Int) - 0 ≤ 0) ∧
    continuationBody true
      (fun o2 l2 => runPaginated constPageServer alwaysTrue true true 0 0 o2 l2)
      0 0 128 true = [Event.completeNone] ∧
    (0 < (300:Int) - 128) ∧
    (continuationBody true
      (fun o2 l2 => runPaginated constPageServer alwaysTrue true true 1 1 o2 l2)
      300 128 128 true).head? =
      some (Event.request 128 (min ((300:Int) - 128) 128)) :=
  ⟨by decide,
   (paginated_continuation_spec constPageServer alwaysTrue true 0 0 0 0 0
      128).2.1 (by decide),
   by decide,
   (paginated_continuation_spec constPageServer alwaysTrue true 1 0 1 300 128
      128).2.2.2.1 (by decide)⟩

/-! ## C4: error routing -/

/-- C4: a transport error or a response without a `pagination` field ends
the session immediately with `onComplete` receiving exactly one argument
(the error, else the malformed response), no `onPage` invocation and no
further request; `onPage` is never invoked with a non-null error; and the
completions reached by declining to continue or by exhaustion carry no
argument. -/
theorem paginated_error_paths (server : Int → Int → ApiOutcome)
    (policy : Nat → Bool) :
    (∀ hasCallback fuel k o l e, server o l = ApiOutcome.failure e →
      runPaginated server policy hasCallback true (fuel+1) k o l =
        [Event.request o l, Event.completeArg (ErrOrRes.err e)]) ∧
    (∀ hasCallback fuel k o l r, server o l = ApiOutcome.success r →
      r.pagination = none →
      runPaginated server policy hasCallback true (fuel+1) k o l =
        [Event.request o l, Event.completeArg (ErrOrRes.res r)]) ∧
    (∀ hasCallback hasCompleted fuel k o l e d pg,
      Event.onPage e d pg ∈
        runPaginated server policy hasCallback hasCompleted fuel k o l →
      e = none) ∧
    (∀ (next : Int → Int → List Event) total offset limit,
      continuationBody true next total offset limit false =
        [Event.completeNone]) ∧
    (∀ (next : Int → Int → List Event) total offset limit,
      total - offset ≤ 0 →
      continuationBody true next total offset limit true =
        [Event.completeNone]) := by
  refine ⟨?_, ?_, ?_, ?_, ?_⟩
  · intro hasCallback fuel k o l e h
    simp [runPaginated, h]
  · intro hasCallback fuel k o l r h1 h2
    simp [runPaginated, h1, h2]
  · intro hasCallback hasCompleted fuel k o l e d pg h
    exact runPaginated_onPage_arg_none server policy hasCallback hasCompleted
      fuel k o l e d pg h
  · intro next total offset limit
    simp [continuationBody]
  · intro next total offset limit h
    simp only [continuationBody, if_true]
    rw [if_neg (by omega)]

/-- Witness for `paginated_error_paths` at concrete inputs. -/
theorem paginated_error_paths_witness :
    failServer 0 128 = ApiOutcome.failure 7 ∧
    runPaginated failServer alwaysTrue true true 1 0 0 128 =
      [Event.request 0 128, Event.completeArg (ErrOrRes.err 7)] :=
  ⟨rfl, (paginated_error_paths failServer alwaysTrue).1 true 0 0 0 128 7 rfl⟩

/-! ## Skip lemmas over traces that continue with a recursive call -/

theorem requestParams_run_head (server : Int → Int → ApiOutcome)
    (policy : Nat → Bool) (hasCallback hasCompleted : Bool) (fuel k : Nat)
    (o l : Int) :
    (requestParams
      (runPaginated server policy hasCallback hasCompleted (fuel+1) k o l)).head? =
      some (o, l) := by
  obtain ⟨rest, hre⟩ :=
    runPaginated_succ_eq server policy hasCallback hasCompleted fuel k o l
  rw [hre, requestParams_cons_request]
  rfl

theorem lastEvent_skip2_run (server : Int → Int → ApiOutcome)
    (policy : Nat → Bool) (hasCallback hasCompleted : Bool) (a b : Event)
    (fuel k : Nat) (o l : Int) :
    lastEvent (a :: b ::
        runPaginated server policy hasCallback hasCompleted (fuel+1) k o l) =
      lastEvent (runPaginated server policy hasCallback hasCompleted (fuel+1) k o l) := by
  obtain ⟨rest, hre⟩ :=
    runPaginated_succ_eq server policy hasCallback hasCompleted fuel k o l
  rw [hre]
  exact lastEvent_cons_cons_of_ne_nil _ _ _ (by simp)

theorem lastRequest_skip_run (server : Int → Int → ApiOutcome)
    (policy : Nat → Bool) (hasCallback hasCompleted : Bool) (o l : Int)
    (e : Option Int) (d : List Nat) (pg : Pagination) (fuel k : Nat)
    (o2 l2 : Int) :
    lastRequest (Event.request o l :: Event.onPage e d pg ::
        runPaginated server policy hasCallback hasCompleted (fuel+1) k o2 l2) =
      lastRequest (runPaginated server policy hasCallback hasCompleted (fuel+1) k o2 l2) := by
  obtain ⟨rest, hre⟩ :=
    runPaginated_succ_eq server policy hasCallback hasCompleted fuel k o2 l2
  rw [hre]
  exact lastRequest_skip o l e d pg _ (by rw [requestParams_cons_request]; simp)

/-! ## Offsets advance by exactly the returned count of each page -/

theorem runPaginated_chain_stepRel (server : Int → Int → ApiOutcome)
    (policy : Nat → Bool) (hasCallback hasCompleted : Bool) :
    ∀ fuel k o l,
      List.Chain' (stepRel server)
        (requestParams
          (runPaginated server policy hasCallback hasCompleted fuel k o l)) := by
  intro fuel
  induction fuel with
  | zero =>
    intro k o l
    simp [runPaginated, requestParams]
  | succ n ih =>
    intro k o l
    cases hs : server o l with
    | failure e =>
      rw [run_eq_failure server policy hasCallback hasCompleted n k o l e hs]
      cases hasCompleted <;> simp [requestParams]
    | success r =>
      cases hp : r.pagination with
      | none =>
        rw [run_eq_malformed server policy hasCallback hasCompleted n k o l r
          hs hp]
        cases hasCompleted <;> simp [requestParams]
      | some pg =>
        rw [run_eq_page server policy hasCallback hasCompleted n k o l r pg
          hs hp]
        cases hasCallback with
        | false => simp [requestParams]
        | true =>
          rw [if_pos rfl, requestParams_cons_request, requestParams_cons_onPage]
          cases hpk : policy k with
          | false =>
            simp only [continuationBody]
            cases hasCompleted <;> simp [requestParams]
          | true =>
            simp only [continuationBody, if_true]
            by_cases hl : pg.total - (o + pg.returned) > 0
            · rw [if_pos hl]
              apply List.chain'_cons'.mpr
              refine ⟨?_, ih (k+1) _ _⟩
              intro y hy
              cases n with
              | zero => simp [runPaginated, requestParams] at hy
              | succ m =>
                rw [requestParams_run_head] at hy
                simp at hy
                subst hy
                exact ⟨pg, by simp [pageOf, hs, hp], rfl⟩
            · rw [if_neg hl]
              cases hasCompleted <;> simp [requestParams]

/-- Offsets are strictly increasing whenever every delivered page has a
positive `returned`. -/
theorem runPaginated_offsets_lt (server : Int → Int → ApiOutcome)
    (policy : Nat → Bool)
    (hpos : ∀ o l pg, pageOf (server o l) = some pg → 0 < pg.returned)
    (fuel k : Nat) (o l : Int) :
    List.Chain' (fun a b => a < b)
      (requestOffsets (runPaginated server policy true true fuel k o l)) := by
  have h := runPaginated_chain_stepRel server policy true true fuel k o l
  unfold requestOffsets
  exact List.chain'_map_of_chain' Prod.fst
    (fun a b hab => by
      obtain ⟨pg, hpg, hq⟩ := hab
      have := hpos a.1 a.2 pg hpg
      omega) h

/-! ## Termination under positive progress and a fixed total -/

theorem runPaginated_terminates_aux (server : Int → Int → ApiOutcome)
    (policy : Nat → Bool) (T : Int)
    (hpg : ∀ o l pg, pageOf (server o l) = some pg →
      0 < pg.returned ∧ pg.total = T) :
    ∀ n k o l, (T - o).toNat < n →
      ∃ e, lastEvent (runPaginated server policy true true n k o l) = some e ∧
        isOnComplete e = true := by
  intro n
  induction n with
  | zero =>
    intro k o l h
    omega
  | succ m ih =>
    intro k o l hfuel
    cases hs : server o l with
    | failure e =>
      refine ⟨Event.completeArg (ErrOrRes.err e), ?_, rfl⟩
      rw [run_eq_failure server policy true true m k o l e hs]
      rfl
    | success r =>
      cases hp : r.pagination with
      | none =>
        refine ⟨Event.completeArg (ErrOrRes.res r), ?_, rfl⟩
        rw [run_eq_malformed server policy true true m k o l r hs hp]
        rfl
      | some pg =>
        obtain ⟨hr, hT⟩ := hpg o l pg (by simp [pageOf, hs, hp])
        rw [run_eq_page server policy true true m k o l r pg hs hp, if_pos rfl]
        cases hpk : policy k with
        | false =>
          exact ⟨Event.completeNone, rfl, rfl⟩
        | true =>
          simp only [continuationBody, if_true]
          by_cases hl : pg.total - (o + pg.returned) > 0
          · rw [if_pos hl]
            have hfuel2 : (T - (o + pg.returned)).toNat < m := by omega
            obtain ⟨e, he, hoc⟩ := ih (k+1) (o + pg.returned)
              (min (pg.total - (o + pg.returned)) l) hfuel2
            refine ⟨e, ?_, hoc⟩
            cases m with
            | zero => omega
            | succ m2 =>
              rw [lastEvent_skip2_run]
              exact he
          · rw [if_neg hl]
            exact ⟨Event.completeNone, rfl, rfl⟩

/-! ## The remaining count before the final page, and the returned sum -/

theorem runPaginated_final_remaining_aux (server : Int → Int → ApiOutcome)
    (policy : Nat → Bool) (T : Int)
    (hpol : ∀ j, policy j = true)
    (hT : ∀ o l pg, pageOf (server o l) = some pg → pg.total = T)
    (hle : ∀ o l pg, pageOf (server o l) = some pg → pg.returned ≤ l) :
    ∀ fuel k o l pr,
      lastEvent (runPaginated server policy true true fuel k o l) =
        some Event.completeNone →
      lastRequest (runPaginated server policy true true fuel k o l) = some pr →
      T - pr.1 ≤ pr.2 := by
  intro fuel
  induction fuel with
  | zero =>
    intro k o l pr h1 h2
    simp [runPaginated, lastEvent] at h1
  | succ m ih =>
    intro k o l pr h1 h2
    cases hs : server o l with
    | failure e =>
      rw [run_eq_failure server policy true true m k o l e hs] at h1
      simp [lastEvent] at h1
    | success r =>
      cases hp : r.pagination with
      | none =>
        rw [run_eq_malformed server policy true true m k o l r hs hp] at h1
        simp [lastEvent] at h1
      | some pg =>
        have hT' := hT o l pg (by simp [pageOf, hs, hp])
        have hle' := hle o l pg (by simp [pageOf, hs, hp])
        rw [run_eq_page server policy true true m k o l r pg hs hp,
          if_pos rfl, hpol k] at h1 h2
        simp only [continuationBody, if_true] at h1 h2
        by_cases hl : pg.total - (o + pg.returned) > 0
        · rw [if_pos hl] at h1 h2
          cases m with
          | zero => simp [runPaginated, lastEvent] at h1
          | succ m2 =>
            rw [lastEvent_skip2_run] at h1
            rw [lastRequest_skip_run] at h2
            exact ih (k+1) (o + pg.returned)
              (min (pg.total - (o + pg.returned)) l) pr h1 h2
        · rw [if_neg hl] at h2
          unfold lastRequest at h2
          rw [requestParams_cons_request, requestParams_cons_onPage] at h2
          have h3 : (o, l) = pr := Option.some.inj h2
          rw [← h3]
          show T - o ≤ l
          omega

theorem runPaginated_sum_aux (server : Int → Int → ApiOutcome)
    (policy : Nat → Bool) (T : Int)
    (hpol : ∀ j, policy j = true)
    (hT : ∀ o l pg, pageOf (server o l) = some pg → pg.total = T)
    (hle : ∀ o l pg, pageOf (server o l) = some pg → pg.returned ≤ l) :
    ∀ fuel k o l, l ≤ T - o →
      lastEvent (runPaginated server policy true true fuel k o l) =
        some Event.completeNone →
      o + sumReturned (runPaginated server policy true true fuel k o l) = T := by
  intro fuel
  induction fuel with
  | zero =>
    intro k o l hinv h1
    simp [runPaginated, lastEvent] at h1
  | succ m ih =>
    intro k o l hinv h1
    cases hs : server o l with
    | failure e =>
      rw [run_eq_failure server policy true true m k o l e hs] at h1
      simp [lastEvent] at h1
    | success r =>
      cases hp : r.pagination with
      | none =>
        rw [run_eq_malformed server policy true true m k o l r hs hp] at h1
        simp [lastEvent] at h1
      | some pg =>
        have hT' := hT o l pg (by simp [pageOf, hs, hp])
        have hle' := hle o l pg (by simp [pageOf, hs, hp])
        rw [run_eq_page server policy true true m k o l r pg hs hp,
          if_pos rfl, hpol k] at h1 ⊢
        simp only [continuationBody, if_true] at h1 ⊢
        by_cases hl : pg.total - (o + pg.returned) > 0
        · rw [if_pos hl] at h1 ⊢
          rw [sumReturned_cons_request, sumReturned_cons_onPage]
          cases m with
          | zero => simp [runPaginated, lastEvent] at h1
          | succ m2 =>
            rw [lastEvent_skip2_run] at h1
            have hiv2 : min (pg.total - (o + pg.returned)) l ≤
                T - (o + pg.returned) := by
              have := min_le_left (pg.total - (o + pg.returned)) l
              omega
            have hrec := ih (k+1) (o + pg.returned)
              (min (pg.total - (o + pg.returned)) l) hiv2 h1
            omega
        · rw [if_neg hl] at h1 ⊢
          rw [sumReturned_cons_request, sumReturned_cons_onPage]
          rw [show sumReturned [Event.completeNone] = 0 from rfl]
          omega

/-! ## C2: progress and termination of a pagination session -/

/-- C2 counterexample: with all pages reporting `returned > 0` and a fixed
total of 300, a session (limit 10, run to exhaustion) whose server returns
more items than requested ends with final request `(250, 10)` while the
remaining count computed before that page is `300 - 250 = 50 > 10` — the
claimed bound fails without assuming `returned ≤ requested limit`. -/
theorem paginated_final_remaining_cex :
    (∀ o l pg, pageOf (serverC2 o l) = some pg →
      0 < pg.returned ∧ pg.total = 300) ∧
    lastEvent (runPaginated serverC2 alwaysTrue true true 3 0 0 10) =
      some Event.completeNone ∧
    lastRequest (runPaginated serverC2 alwaysTrue true true 3 0 0 10) =
      some (250, 10) ∧
    ¬((300:Int) - 250 ≤ 10) := by
    refine ⟨?_, rfl, rfl, by decide⟩
    intro o l pg h
    simp only [serverC2] at h
    by_cases ho : o = 0
    · rw [if_pos ho] at h
      obtain rfl := Option.some.inj h
      exact ⟨by decide, rfl⟩
    · rw [if_neg ho] at h
      obtain rfl := Option.some.inj h
      exact ⟨by decide, rfl⟩

/-- C2 (amended): in any session, consecutive requests advance the offset
by exactly the `returned` of the intervening page — hence strictly
increasing offsets when every page has `returned > 0`; with `returned ≥ 1`
and a fixed reported total the session reaches an `onComplete` invocation
with some finite fuel; and — additionally assuming every response's
`returned` is at most the requested limit and the caller always continues —
the remaining count computed before the final request is at most that
request's limit. -/
theorem paginated_progress_termination (server : Int → Int → ApiOutcome)
    (policy : Nat → Bool) (T : Int)
    (hpg : ∀ o l pg, pageOf (server o l) = some pg →
      0 < pg.returned ∧ pg.total = T) :
    (∀ fuel k o l,
      List.Chain' (stepRel server)
        (requestParams (runPaginated server policy true true fuel k o l)) ∧
      List.Chain' (fun a b => a < b)
        (requestOffsets (runPaginated server policy true true fuel k o l))) ∧
    (∀ k o l, ∃ fuel e,
      lastEvent (runPaginated server policy true true fuel k o l) = some e ∧
      isOnComplete e = true) ∧
    (∀ fuel k o l pr,
      (∀ j, policy j = true) →
      (∀ o2 l2 pg, pageOf (server o2 l2) = some pg → pg.returned ≤ l2) →
      lastEvent (runPaginated server policy true true fuel k o l) =
        some Event.completeNone →
      lastRequest (runPaginated server policy true true fuel k o l) =
        some pr →
      T - pr.1 ≤ pr.2) := by
  refine ⟨?_, ?_, ?_⟩
  · intro fuel k o l
    exact ⟨runPaginated_chain_stepRel server policy true true fuel k o l,
      runPaginated_offsets_lt server policy
        (fun o2 l2 pg h => (hpg o2 l2 pg h).1) fuel k o l⟩
  · intro k o l
    exact ⟨(T - o).toNat + 1,
      runPaginated_terminates_aux server policy T hpg ((T - o).toNat + 1) k o l
        (by omega)⟩
  · intro fuel k o l pr hpol hle h1 h2
    exact runPaginated_final_remaining_aux server policy T hpol
      (fun o2 l2 pg h => (hpg o2 l2 pg h).2) hle fuel k o l pr h1 h2

/-- Witness for `paginated_progress_termination` at concrete inputs. -/
theorem paginated_progress_termination_witness :
    (∀ o l pg, pageOf (constPageServer o l) = some pg →
      0 < pg.returned ∧ pg.total = 2) ∧
    (List.Chain' (stepRel constPageServer)
      (requestParams (runPaginated constPageServer alwaysTrue true true 3 0 0 2)) ∧
     List.Chain' (fun a b => a < b)
      (requestOffsets (runPaginated constPageServer alwaysTrue true true 3 0 0 2))) ∧
    (∃ fuel e,
      lastEvent (runPaginated constPageServer alwaysTrue true true fuel 0 0 2) =
        some e ∧ isOnComplete e = true) := by
  have hpg : ∀ o l pg, pageOf (constPageServer o l) = some pg →
      0 < pg.returned ∧ pg.total = 2 := by
    intro o l pg h
    obtain rfl := Option.some.inj h
    exact ⟨by decide, rfl⟩
  exact ⟨hpg,
    (paginated_progress_termination constPageServer alwaysTrue 2 hpg).1 3 0 0 2,
    (paginated_progress_termination constPageServer alwaysTrue 2 hpg).2.1 0 0 2⟩

/-! ## C5: the returned counts sum to the total -/

/-- C5 counterexample: a server reporting `total = 5` but returning 7 items
on the first page — still within the requested limit 128 and with the total
fixed — drives the session to natural exhaustion with
`sum(returned) = 7 ≠ 5 = total`: the claim's hypotheses do not rule this
out, because the first request's limit is not clamped to the total. -/
theorem paginated_sum_cex :
    runPaginated serverC5 alwaysTrue true true 1 0 0 128 =
      [Event.request 0 128,
       Event.onPage none (List.replicate 7 0) ⟨7, 5⟩,
       Event.completeNone] ∧
    (∀ o l pg, pageOf (serverC5 o l) = some pg →
      pg.returned = 7 ∧ pg.total = 5 ∧ pg.returned ≤ 128) ∧
    lastEvent (runPaginated serverC5 alwaysTrue true true 1 0 0 128) =
      some Event.completeNone ∧
    sumReturned (runPaginated serverC5 alwaysTrue true true 1 0 0 128) = 7 ∧
    sumReturned (runPaginated serverC5 alwaysTrue true true 1 0 0 128) ≠ 5 := by
  refine ⟨rfl, ?_, rfl, rfl, by decide⟩
  intro o l pg h
  obtain rfl := Option.some.inj h
  exact ⟨rfl, rfl, by decide⟩

/-- C5 (amended): for a session started at offset 0 and run to natural
exhaustion, if every response's `returned` is at most the requested limit,
the first response's `returned` is at most the reported total, and the
reported total stays fixed, then the `returned` counts of the delivered
pages sum to exactly that total. -/
theorem paginated_sum_eq_total (server : Int → Int → ApiOutcome)
    (policy : Nat → Bool) (T limit0 : Int) (fuel : Nat)
    (hpol : ∀ j, policy j = true)
    (hT : ∀ o l pg, pageOf (server o l) = some pg → pg.total = T)
    (hle : ∀ o l pg, pageOf (server o l) = some pg → pg.returned ≤ l)
    (hfirst : ∀ pg, pageOf (server 0 limit0) = some pg → pg.returned ≤ T)
    (hlast : lastEvent (runPaginated server policy true true fuel 0 0 limit0) =
      some Event.completeNone) :
    sumReturned (runPaginated server policy true true fuel 0 0 limit0) = T := by
  cases fuel with
  | zero => simp [runPaginated, lastEvent] at hlast
  | succ m =>
    cases hs : server 0 limit0 with
    | failure e =>
      rw [run_eq_failure server policy true true m 0 0 limit0 e hs] at hlast
      simp [lastEvent] at hlast
    | success r =>
      cases hp : r.pagination with
      | none =>
        rw [run_eq_malformed server policy true true m 0 0 limit0 r hs hp]
          at hlast
        simp [lastEvent] at hlast
      | some pg =>
        have hT' := hT 0 limit0 pg (by simp [pageOf, hs, hp])
        have hfirst' := hfirst pg (by simp [pageOf, hs, hp])
        rw [run_eq_page server policy true true m 0 0 limit0 r pg hs hp,
          if_pos rfl, hpol 0] at hlast ⊢
        simp only [continuationBody, if_true] at hlast ⊢
        by_cases hl : pg.total - (0 + pg.returned) > 0
        · rw [if_pos hl] at hlast ⊢
          rw [sumReturned_cons_request, sumReturned_cons_onPage]
          cases m with
          | zero => simp [runPaginated, lastEvent] at hlast
          | succ m2 =>
            rw [lastEvent_skip2_run] at hlast
            have hiv : min (pg.total - (0 + pg.returned)) limit0 ≤
                T - (0 + pg.returned) := by
              have := min_le_left (pg.total - (0 + pg.returned)) limit0
              omega
            have hrec := runPaginated_sum_aux server policy T hpol hT hle
              (m2+1) (0 + 1) (0 + pg.returned)
              (min (pg.total - (0 + pg.returned)) limit0) hiv hlast
            omega
        · rw [if_neg hl] at hlast ⊢
          rw [sumReturned_cons_request, sumReturned_cons_onPage]
          rw [show sumReturned [Event.completeNone] = 0 from rfl]
          omega

/-- Witness for `paginated_sum_eq_total` at concrete inputs. -/
theorem paginated_sum_eq_total_witness :
    (∀ j, alwaysTrue j = true) ∧
    (∀ o l pg, pageOf (serverEcho2 o l) = some pg → pg.total = 2) ∧
    (∀ o l pg, pageOf (serverEcho2 o l) = some pg → pg.returned ≤ l) ∧
    (∀ pg, pageOf (serverEcho2 0 2) = some pg → pg.returned ≤ 2) ∧
    lastEvent (runPaginated serverEcho2 alwaysTrue true true 1 0 0 2) =
      some Event.completeNone ∧
    sumReturned (runPaginated serverEcho2 alwaysTrue true true 1 0 0 2) = 2 := by
  have hpol : ∀ j, alwaysTrue j = true := fun _ => rfl
  have hT : ∀ o l pg, pageOf (serverEcho2 o l) = some pg → pg.total = 2 := by
    intro o l pg h
    obtain rfl := Option.some.inj h
    rfl
  have hle : ∀ o l pg, pageOf (serverEcho2 o l) = some pg →
      pg.returned ≤ l := by
    intro o l pg h
    obtain rfl := Option.some.inj h
    exact le_refl l
  have hfirst : ∀ pg, pageOf (serverEcho2 0 2) = some pg →
      pg.returned ≤ 2 := by
    intro pg h
    obtain rfl := Option.some.inj h
    decide
  exact ⟨hpol, hT, hle, hfirst, rfl,
    paginated_sum_eq_total serverEcho2 alwaysTrue 2 2 1 hpol hT hle hfirst rfl⟩
